import Mathlib

/-!
Verification of the cooperative-game resource-allocation engine (`os_da.py`).

The engine is the class `CloudResourceGame`: it owns an ordered list of `VM`
records (each with an `id` and a resource `demand`) and a scalar
`total_resources`, and exposes the characteristic function
`min(Σ demand over coalition, total_resources)`, the exact brute-force Shapley
value computation, a Shapley-based allocation, and a proportional allocation.

Numbers are embedded as exact rationals (`ℚ`); Python lists as `List`;
coalitions of indices (the tuples produced by `itertools.combinations`) as
`Finset ℕ`.  All arithmetic in the source is exact under this reading, and the
claims about numeric results are settled over exact rational arithmetic.
-/

/-- Embedding of the Python class `VM`: an identifier and a resource demand. -/
structure VM where
  id : ℕ
  demand : ℚ
deriving DecidableEq

instance : Inhabited VM := ⟨⟨0, 0⟩⟩

/-- Embedding of the engine state set by the constructor: the list of VMs and
the total available resources.  `n` is derived (`self.n = len(vms)`). -/
structure CloudResourceGame where
  vms : List VM
  total_resources : ℚ
deriving DecidableEq

namespace CloudResourceGame

/-- The field access `self.n = len(self.vms)`: the number of VMs in the system. -/
def n (g : CloudResourceGame) : ℕ := g.vms.length

/-- Positional indexing `self.vms[i]`.  Every index the engine produces lies in
`[0, n)`, where `getD` agrees with Python indexing. -/
def vm (g : CloudResourceGame) (i : ℕ) : VM := g.vms.getD i default

/-- Embedding of `characteristic_function`: the value of a coalition (given as
the materialised list of VM records) is
`min(sum of demands in the coalition, total_resources)`. -/
def characteristic_function (g : CloudResourceGame) (coalition : List VM) : ℚ :=
  min ((coalition.map VM.demand).sum) g.total_resources

/-- The weight computed inside `calculate_shapley_values`,
`factorial(len(sub_coalition)) * factorial(n - len(sub_coalition) - 1) / factorial(n)`,
as a function of `s = len(sub_coalition)`. -/
def weight (g : CloudResourceGame) (s : ℕ) : ℚ :=
  (Nat.factorial s * Nat.factorial (g.n - s - 1) : ℚ) / (Nat.factorial g.n : ℚ)

/-- The list comprehension `[self.vms[i] for i in coalition_indices]`:
materialise a coalition of indices as the list of VM records.
`itertools.combinations(range(n), s)` yields its indices in increasing order,
which for a subset of `range n` is exactly the increasing enumeration below. -/
def coalitionList (g : CloudResourceGame) (C : Finset ℕ) : List VM :=
  ((List.range g.n).filter (fun i => decide (i ∈ C))).map g.vm

/-- The total accumulated into `shapley_values[vm_idx]` by
`calculate_shapley_values`.  The two outer loops (over `coalition_size` from 1
to `n` and over `itertools.combinations(range(n), coalition_size)`) enumerate
every nonempty subset of `range(n)` exactly once; the inner loop adds a term
for each coalition containing `vm_idx`, so the accumulated total is the sum
below (the empty coalition contributes no term since it contains no index). -/
def shapleyValue (g : CloudResourceGame) (vm_idx : ℕ) : ℚ :=
  ∑ C ∈ (Finset.range g.n).powerset.filter (fun C => vm_idx ∈ C),
    (g.characteristic_function (g.coalitionList C)
      - g.characteristic_function (g.coalitionList (C.erase vm_idx)))
      * g.weight (C.erase vm_idx).card

/-- Embedding of `calculate_shapley_values`: the list of accumulated Shapley
values, index-aligned with the registry. -/
def calculate_shapley_values (g : CloudResourceGame) : List ℚ :=
  (List.range g.n).map g.shapleyValue

/-- Embedding of `calculate_proportional_allocation`: full demand when total
demand fits, otherwise each VM gets `total_resources * (demand / total_demand)`. -/
def calculate_proportional_allocation (g : CloudResourceGame) : List ℚ :=
  let total_demand := (g.vms.map VM.demand).sum
  if total_demand ≤ g.total_resources then
    g.vms.map VM.demand
  else
    g.vms.map fun v => g.total_resources * (v.demand / total_demand)

/-- Embedding of `allocate_resources`: all zeros when the total Shapley value
is `≤ 0`, otherwise `min(total_resources * shapley_i / total_shapley, demand_i)`
per VM. -/
def allocate_resources (g : CloudResourceGame) : List ℚ :=
  let shapley_values := g.calculate_shapley_values
  let total_shapley := shapley_values.sum
  if total_shapley ≤ 0 then
    List.replicate g.n 0
  else
    (List.range g.n).map fun i =>
      min (g.total_resources * (shapley_values.getD i 0 / total_shapley)) (g.vm i).demand

/-- Embedding of the constructor: `CloudResourceGame.__init__` stores `vms` and
`total_resources` unchanged and computes `self.n`.  It contains no validation
and no raise statement, so the fallible embedding always returns `some`. -/
def construct (vms : List VM) (total_resources : ℚ) : Option CloudResourceGame :=
  some { vms := vms, total_resources := total_resources }

/-- The input-validity precondition of the specification: every demand is
non-negative and the total resource pool is non-negative. -/
def Valid (g : CloudResourceGame) : Prop :=
  (∀ v ∈ g.vms, 0 ≤ v.demand) ∧ 0 ≤ g.total_resources

/-- The value `min(Σ demand over C, total_resources)` of a coalition of
indices; `characteristic_function` applied to the materialised coalition list
equals this (lemma `charfun_coalitionList` below). -/
def coalitionValue (g : CloudResourceGame) (C : Finset ℕ) : ℚ :=
  min (∑ j ∈ C, (g.vm j).demand) g.total_resources

/-- The combined coefficient `k! * (n - k)! / n!` appearing in the efficiency
computation: `#C * weight (#C - 1)` and `(n - #C) * weight #C` both equal
`fullWeight` at the respective size. -/
def fullWeight (g : CloudResourceGame) (k : ℕ) : ℚ :=
  (Nat.factorial k * Nat.factorial (g.n - k) : ℚ) / (Nat.factorial g.n : ℚ)

instance (g : CloudResourceGame) : Decidable g.Valid := by
  unfold Valid; infer_instance

end CloudResourceGame

/-- The concrete scenario from `main()`: three VMs with demands 10, 20, 30 and
a pool of 45 resource units. -/
def game3 : CloudResourceGame :=
  { vms := [⟨1, 10⟩, ⟨2, 20⟩, ⟨3, 30⟩], total_resources := 45 }

/-- A degenerate scenario: one VM, zero total resources. -/
def gameZero : CloudResourceGame :=
  { vms := [⟨1, 10⟩], total_resources := 0 }

namespace CloudResourceGame

/-- Unfolding of `allocate_resources` with its local variables inlined. -/
lemma allocate_resources_def (g : CloudResourceGame) :
    g.allocate_resources =
      if (g.calculate_shapley_values).sum ≤ 0 then
        List.replicate g.n 0
      else
        (List.range g.n).map fun i =>
          min (g.total_resources *
              ((g.calculate_shapley_values).getD i 0 / (g.calculate_shapley_values).sum))
            (g.vm i).demand := rfl

/-- Unfolding of `calculate_proportional_allocation` with its local variable
inlined. -/
lemma calculate_proportional_allocation_def (g : CloudResourceGame) :
    g.calculate_proportional_allocation =
      if (g.vms.map VM.demand).sum ≤ g.total_resources then
        g.vms.map VM.demand
      else
        g.vms.map fun v =>
          g.total_resources * (v.demand / (g.vms.map VM.demand).sum) := rfl

end CloudResourceGame

/-- Sum of a mapped `List.range` as a `Finset.range` sum. -/
lemma sum_map_list_range (n : ℕ) (f : ℕ → ℚ) :
    ((List.range n).map f).sum = ∑ i ∈ Finset.range n, f i := by
  induction n with
  | zero => simp
  | succ m ih =>
      rw [List.range_succ, List.map_append, List.sum_append, Finset.sum_range_succ, ih]
      simp

/-- Sum of a mapped list as a sum over positions. -/
lemma sum_map_getD (l : List VM) (f : VM → ℚ) :
    (l.map f).sum = ∑ i ∈ Finset.range l.length, f (l.getD i default) := by
  induction l with
  | nil => simp
  | cons a t ih =>
      rw [List.map_cons, List.sum_cons, List.length_cons, Finset.sum_range_succ']
      simp only [List.getD_cons_succ, List.getD_cons_zero]
      rw [← ih]
      ring

/-- Sum of a filtered, mapped `List.range` as a sum over a filtered
`Finset.range`. -/
lemma sum_map_filter_range (n : ℕ) (p : ℕ → Prop) [DecidablePred p] (f : ℕ → ℚ) :
    (((List.range n).filter (fun j => decide (p j))).map f).sum
      = ∑ j ∈ (Finset.range n).filter p, f j := by
  induction n with
  | zero => simp
  | succ m ih =>
      rw [List.range_succ, List.filter_append, List.map_append, List.sum_append, ih,
        Finset.range_succ, Finset.filter_insert]
      by_cases hp : p m
      · rw [if_pos hp, Finset.sum_insert (by simp)]
        simp [hp]
        ring
      · rw [if_neg hp]
        simp [hp]

/-- Indexing a `map` over `List.range` with `getD`. -/
lemma getD_map_range {n i : ℕ} (f : ℕ → ℚ) (hi : i < n) :
    (((List.range n).map f)).getD i 0 = f i := by
  have hlen : i < ((List.range n).map f).length := by simpa using hi
  rw [List.getD_eq_getElem _ _ hlen]
  simp

/-- Indexing a replicated list of zeros with `getD`. -/
lemma getD_replicate_zero {m i : ℕ} (hi : i < m) :
    (List.replicate m (0 : ℚ)).getD i 0 = 0 := by
  rw [List.getD_eq_getElem _ _ (by simpa using hi)]
  simp

/-- The default VM used for out-of-range indexing has demand 0. -/
lemma default_demand : (default : VM).demand = 0 := rfl

namespace CloudResourceGame

/-- Indexing a map over the registry with `getD`, for mapped functions that
send the default VM to 0. -/
lemma getD_map_vms (g : CloudResourceGame) (f : VM → ℚ) (hf : f default = 0) (i : ℕ) :
    (g.vms.map f).getD i 0 = f (g.vm i) := by
  rw [vm, ← hf]
  exact List.getD_map g.vms default f

/-- The list of Shapley values has one entry per VM. -/
lemma length_calculate_shapley_values (g : CloudResourceGame) :
    (g.calculate_shapley_values).length = g.n := by
  simp [calculate_shapley_values]

/-- Positional access to the computed Shapley values. -/
lemma getD_calculate_shapley_values (g : CloudResourceGame) {i : ℕ} (hi : i < g.n) :
    (g.calculate_shapley_values).getD i 0 = g.shapleyValue i :=
  getD_map_range g.shapleyValue hi

/-- The sum of the computed Shapley values as a `Finset` sum. -/
lemma sum_calculate_shapley_values (g : CloudResourceGame) :
    (g.calculate_shapley_values).sum = ∑ i ∈ Finset.range g.n, g.shapleyValue i :=
  sum_map_list_range g.n g.shapleyValue

/-- The total demand of the registry as a `Finset` sum over indices. -/
lemma sum_demands (g : CloudResourceGame) :
    (g.vms.map VM.demand).sum = ∑ j ∈ Finset.range g.n, (g.vm j).demand :=
  sum_map_getD g.vms VM.demand

/-- Applying `characteristic_function` to a materialised coalition of indices drawn
from `range n` computes `coalitionValue`. -/
lemma charfun_coalitionList (g : CloudResourceGame) {C : Finset ℕ}
    (hC : C ⊆ Finset.range g.n) :
    g.characteristic_function (g.coalitionList C) = g.coalitionValue C := by
  rw [characteristic_function, coalitionValue, coalitionList, List.map_map]
  congr 1
  rw [show (VM.demand ∘ g.vm) = fun j => (g.vm j).demand from rfl]
  rw [sum_map_filter_range g.n (fun j => j ∈ C) (fun j => (g.vm j).demand)]
  congr 1
  rw [Finset.filter_mem_eq_inter, Finset.inter_eq_right.mpr hC]

/-- Every indexed demand is non-negative under the validity precondition
(the out-of-range default VM has demand 0). -/
lemma demand_nonneg (g : CloudResourceGame) (hg : g.Valid) (j : ℕ) :
    0 ≤ (g.vm j).demand := by
  rcases lt_or_ge j g.vms.length with hj | hj
  · exact hg.1 _ (by rw [vm, List.getD_eq_getElem _ _ hj]; exact List.getElem_mem hj)
  · rw [vm, List.getD_eq_default _ _ hj]
    exact le_refl 0

/-- The coalition value is monotone with respect to coalition inclusion when
all demands are non-negative. -/
lemma coalitionValue_mono (g : CloudResourceGame) (hg : g.Valid) {S C : Finset ℕ}
    (h : S ⊆ C) : g.coalitionValue S ≤ g.coalitionValue C := by
  refine min_le_min ?_ le_rfl
  exact Finset.sum_le_sum_of_subset_of_nonneg h fun j _ _ => g.demand_nonneg hg j

/-- Each coalition weight is non-negative. -/
lemma weight_nonneg (g : CloudResourceGame) (s : ℕ) : 0 ≤ g.weight s := by
  unfold weight
  positivity

/-- Every accumulated Shapley value is non-negative under the validity
precondition: each marginal contribution is non-negative by monotonicity. -/
lemma shapleyValue_nonneg (g : CloudResourceGame) (hg : g.Valid) (i : ℕ) :
    0 ≤ g.shapleyValue i := by
  refine Finset.sum_nonneg fun C hC => ?_
  rw [Finset.mem_filter, Finset.mem_powerset] at hC
  have hsub : C.erase i ⊆ Finset.range g.n := (Finset.erase_subset i C).trans hC.1
  rw [charfun_coalitionList g hC.1, charfun_coalitionList g hsub]
  exact mul_nonneg
    (sub_nonneg.mpr (g.coalitionValue_mono hg (Finset.erase_subset i C)))
    (g.weight_nonneg _)

/-- The accumulated value `shapleyValue` written in terms of `coalitionValue`. -/
lemma shapleyValue_eq (g : CloudResourceGame) (i : ℕ) :
    g.shapleyValue i
      = ∑ C ∈ (Finset.range g.n).powerset.filter (fun C => i ∈ C),
          (g.coalitionValue C - g.coalitionValue (C.erase i)) * g.weight (C.erase i).card := by
  refine Finset.sum_congr rfl fun C hC => ?_
  rw [Finset.mem_filter, Finset.mem_powerset] at hC
  rw [charfun_coalitionList g hC.1,
    charfun_coalitionList g ((Finset.erase_subset i C).trans hC.1)]

/-- The identity `c * weight (c - 1) = fullWeight c` for a nonempty coalition size `c`. -/
lemma mul_weight_pred (g : CloudResourceGame) {c : ℕ} (hc : 1 ≤ c) :
    (c : ℚ) * g.weight (c - 1) = g.fullWeight c := by
  unfold weight fullWeight
  have h1 : g.n - (c - 1) - 1 = g.n - c := by omega
  rw [h1]
  have key : (Nat.factorial c : ℚ) = (c : ℚ) * (Nat.factorial (c - 1) : ℚ) := by
    exact_mod_cast (Nat.mul_factorial_pred (show 0 < c by omega)).symm
  rw [key]
  ring

/-- The identity `(n - c) * weight c = fullWeight c` for a proper coalition size `c < n`. -/
lemma mul_weight_self (g : CloudResourceGame) {c : ℕ} (hc : c < g.n) :
    ((g.n - c : ℕ) : ℚ) * g.weight c = g.fullWeight c := by
  unfold weight fullWeight
  have key : (Nat.factorial (g.n - c) : ℚ)
      = ((g.n - c : ℕ) : ℚ) * (Nat.factorial (g.n - c - 1) : ℚ) := by
    exact_mod_cast (Nat.mul_factorial_pred (show 0 < g.n - c by omega)).symm
  rw [key]
  ring

/-- The coefficient `fullWeight 0` equals 1. -/
lemma fullWeight_zero (g : CloudResourceGame) : g.fullWeight 0 = 1 := by
  unfold fullWeight
  rw [Nat.factorial_zero, Nat.sub_zero, Nat.cast_one, one_mul]
  exact div_self (by exact_mod_cast g.n.factorial_ne_zero)

/-- The coefficient `fullWeight n` equals 1. -/
lemma fullWeight_n (g : CloudResourceGame) : g.fullWeight g.n = 1 := by
  unfold fullWeight
  rw [Nat.sub_self, Nat.factorial_zero, Nat.cast_one, mul_one]
  exact div_self (by exact_mod_cast g.n.factorial_ne_zero)

/-- Efficiency over the index coalitions: the accumulated Shapley values sum
to the value of the grand coalition minus the value of the empty coalition. -/
lemma sum_shapleyValue (g : CloudResourceGame) :
    ∑ i ∈ Finset.range g.n, g.shapleyValue i
      = g.coalitionValue (Finset.range g.n) - g.coalitionValue ∅ := by
  classical
  have step1 : ∑ i ∈ Finset.range g.n, g.shapleyValue i
      = ∑ C ∈ (Finset.range g.n).powerset, ∑ i ∈ C,
          (g.coalitionValue C - g.coalitionValue (C.erase i)) * g.weight (C.erase i).card := by
    simp only [shapleyValue_eq, Finset.sum_filter]
    rw [Finset.sum_comm]
    refine Finset.sum_congr rfl fun C hC => ?_
    rw [Finset.mem_powerset] at hC
    rw [← Finset.sum_filter, Finset.filter_mem_eq_inter, Finset.inter_eq_right.mpr hC]
  have step2 : ∀ C ∈ (Finset.range g.n).powerset,
      ∑ i ∈ C, (g.coalitionValue C - g.coalitionValue (C.erase i)) * g.weight (C.erase i).card
      = C.card • (g.coalitionValue C * g.weight (C.card - 1))
        - ∑ i ∈ C, g.coalitionValue (C.erase i) * g.weight (C.erase i).card := by
    intro C hC
    simp only [sub_mul]
    rw [Finset.sum_sub_distrib]
    congr 1
    calc ∑ i ∈ C, g.coalitionValue C * g.weight (C.erase i).card
        = ∑ _i ∈ C, g.coalitionValue C * g.weight (C.card - 1) :=
          Finset.sum_congr rfl fun i hi => by rw [Finset.card_erase_of_mem hi]
      _ = C.card • (g.coalitionValue C * g.weight (C.card - 1)) := Finset.sum_const _
  have stepA : ∑ C ∈ (Finset.range g.n).powerset,
      C.card • (g.coalitionValue C * g.weight (C.card - 1))
      = (∑ C ∈ (Finset.range g.n).powerset, g.fullWeight C.card * g.coalitionValue C)
        - g.coalitionValue ∅ := by
    have hmem : (∅ : Finset ℕ) ∈ (Finset.range g.n).powerset := Finset.empty_mem_powerset _
    rw [← Finset.add_sum_erase _
        (fun C => C.card • (g.coalitionValue C * g.weight (C.card - 1))) hmem,
      ← Finset.add_sum_erase _ (fun C => g.fullWeight C.card * g.coalitionValue C) hmem]
    simp only [Finset.card_empty, zero_smul, zero_add, fullWeight_zero, one_mul]
    rw [add_sub_cancel_left]
    refine Finset.sum_congr rfl fun C hC => ?_
    have hne : C ≠ ∅ := (Finset.mem_erase.mp hC).1
    have hc : 1 ≤ C.card := Finset.card_pos.mpr (Finset.nonempty_of_ne_empty hne)
    rw [nsmul_eq_mul, ← g.mul_weight_pred hc]
    ring
  have stepB : ∑ C ∈ (Finset.range g.n).powerset,
      ∑ i ∈ C, g.coalitionValue (C.erase i) * g.weight (C.erase i).card
      = (∑ C ∈ (Finset.range g.n).powerset, g.fullWeight C.card * g.coalitionValue C)
        - g.coalitionValue (Finset.range g.n) := by
    have h1 : ∑ C ∈ (Finset.range g.n).powerset,
        ∑ i ∈ C, g.coalitionValue (C.erase i) * g.weight (C.erase i).card
        = ∑ S ∈ (Finset.range g.n).powerset,
            ∑ _i ∈ Finset.range g.n \ S, g.coalitionValue S * g.weight S.card := by
      rw [Finset.sum_sigma', Finset.sum_sigma']
      refine Finset.sum_nbij' (fun p => ⟨p.1.erase p.2, p.2⟩)
        (fun q => ⟨insert q.2 q.1, q.2⟩) ?_ ?_ ?_ ?_ ?_
      · rintro ⟨C, i⟩ hp
        rw [Finset.mem_sigma, Finset.mem_powerset] at hp ⊢
        refine ⟨(Finset.erase_subset i C).trans hp.1, ?_⟩
        rw [Finset.mem_sdiff]
        exact ⟨hp.1 hp.2, Finset.not_mem_erase i C⟩
      · rintro ⟨S, i⟩ hq
        rw [Finset.mem_sigma, Finset.mem_powerset, Finset.mem_sdiff] at hq
        rw [Finset.mem_sigma, Finset.mem_powerset]
        exact ⟨Finset.insert_subset hq.2.1 hq.1, Finset.mem_insert_self i S⟩
      · rintro ⟨C, i⟩ hp
        rw [Finset.mem_sigma] at hp
        simp [Finset.insert_erase hp.2]
      · rintro ⟨S, i⟩ hq
        rw [Finset.mem_sigma, Finset.mem_powerset, Finset.mem_sdiff] at hq
        simp [Finset.erase_insert hq.2.2]
      · rintro ⟨C, i⟩ _
        rfl
    rw [h1]
    have hNmem : Finset.range g.n ∈ (Finset.range g.n).powerset :=
      Finset.mem_powerset_self _
    rw [← Finset.add_sum_erase _
        (fun S => ∑ _i ∈ Finset.range g.n \ S, g.coalitionValue S * g.weight S.card) hNmem,
      ← Finset.add_sum_erase _ (fun C => g.fullWeight C.card * g.coalitionValue C) hNmem]
    simp only [Finset.sdiff_self, Finset.sum_empty, zero_add, Finset.card_range,
      fullWeight_n, one_mul]
    rw [add_sub_cancel_left]
    refine Finset.sum_congr rfl fun S hS => ?_
    have hS' := Finset.mem_erase.mp hS
    have hsub : S ⊆ Finset.range g.n := Finset.mem_powerset.mp hS'.2
    have hlt : S.card < g.n := by
      have := Finset.card_lt_card (Finset.ssubset_iff_subset_ne.mpr ⟨hsub, hS'.1⟩)
      simpa using this
    rw [Finset.sum_const, Finset.card_sdiff hsub, Finset.card_range, nsmul_eq_mul,
      ← g.mul_weight_self hlt]
    ring
  rw [step1, Finset.sum_congr rfl step2, Finset.sum_sub_distrib, stepA, stepB]
  ring

end CloudResourceGame

/-- C5: for every registry and total_resources, if the sum of the computed
Shapley values is at most 0, then `allocate_resources` returns the all-zero
list of length `n`; the degenerate case is a returned value, not an error. -/
theorem c5_degenerate_allocation (g : CloudResourceGame)
    (h : (g.calculate_shapley_values).sum ≤ 0) :
    g.allocate_resources = List.replicate g.n 0 := by
  rw [CloudResourceGame.allocate_resources_def, if_pos h]

/-- Witness for C5 at the concrete one-VM, zero-resources scenario. -/
theorem c5_degenerate_allocation_witness :
    (gameZero.calculate_shapley_values).sum ≤ 0 ∧
      gameZero.allocate_resources = List.replicate gameZero.n 0 := by
  have hsum : (gameZero.calculate_shapley_values).sum ≤ 0 := by
    have e : gameZero.calculate_shapley_values = [gameZero.shapleyValue 0] := rfl
    rw [e, List.sum_cons, List.sum_nil, add_zero]
    unfold CloudResourceGame.shapleyValue
    have h : (Finset.range gameZero.n).powerset.filter (fun C => (0 : ℕ) ∈ C) = {{0}} := by
      decide
    rw [h, Finset.sum_singleton]
    have e2 : gameZero.coalitionList {0} = [⟨1, 10⟩] := rfl
    have e3 : gameZero.coalitionList (({0} : Finset ℕ).erase 0) = [] := rfl
    have e4 : ((({0} : Finset ℕ).erase 0)).card = 0 := rfl
    rw [e2, e3, e4]
    norm_num [CloudResourceGame.characteristic_function, CloudResourceGame.weight,
      CloudResourceGame.n, gameZero, min_def]
  exact ⟨hsum, c5_degenerate_allocation gameZero hsum⟩

/-- C6: with an empty registry both allocation methods return the empty list,
and both take their division-free branch: the Shapley sum is `≤ 0` (so the
all-zero branch fires, no division by `total_shapley`) and total demand is
`≤ total_resources` (so the full-demand branch fires, no division by `D`). -/
theorem c6_empty_registry (g : CloudResourceGame) (h : g.vms = [])
    (hT : 0 ≤ g.total_resources) :
    g.allocate_resources = [] ∧ g.calculate_proportional_allocation = [] ∧
      (g.calculate_shapley_values).sum ≤ 0 ∧
      (g.vms.map VM.demand).sum ≤ g.total_resources := by
  have hn : g.n = 0 := by simp [CloudResourceGame.n, h]
  have hs : g.calculate_shapley_values = [] := by
    simp [CloudResourceGame.calculate_shapley_values, hn]
  have hsum : (g.calculate_shapley_values).sum ≤ 0 := by simp [hs]
  have hD : (g.vms.map VM.demand).sum ≤ g.total_resources := by simp [h, hT]
  refine ⟨?_, ?_, hsum, hD⟩
  · rw [CloudResourceGame.allocate_resources_def, if_pos hsum, hn]
    rfl
  · rw [CloudResourceGame.calculate_proportional_allocation_def, if_pos hD, h]
    rfl

/-- Witness for C6 at the concrete empty-registry scenario with 45 resources. -/
theorem c6_empty_registry_witness :
    (CloudResourceGame.mk [] 45).vms = [] ∧
      (0 : ℚ) ≤ (CloudResourceGame.mk [] 45).total_resources ∧
      (CloudResourceGame.mk [] 45).allocate_resources = [] ∧
      (CloudResourceGame.mk [] 45).calculate_proportional_allocation = [] ∧
      ((CloudResourceGame.mk [] 45).calculate_shapley_values).sum ≤ 0 ∧
      ((CloudResourceGame.mk [] 45).vms.map VM.demand).sum ≤
        (CloudResourceGame.mk [] 45).total_resources := by
  refine ⟨rfl, by decide, ?_⟩
  have h := c6_empty_registry (CloudResourceGame.mk [] 45) rfl (by decide)
  exact ⟨h.1, h.2.1, h.2.2.1, h.2.2.2⟩

/-- C2 counterexample: constructing the engine with a negative demand
succeeds (the constructor performs no validation), contradicting the claim
that construction fails whenever some demand is negative. -/
theorem c2_construct_negative_demand_accepted :
    (CloudResourceGame.construct [⟨1, -5⟩] 10).isSome = true := rfl

/-- C2 (amended): engine construction never rejects; it succeeds for every
consumer list and every total_resources, including negative demands and a
negative pool, because the constructor stores its inputs without validation. -/
theorem c2_construct_total (vms : List VM) (total_resources : ℚ) :
    (CloudResourceGame.construct vms total_resources).isSome = true := rfl

/-- C1: for every registry with non-negative demands and non-negative
total_resources, the Shapley values computed by `calculate_shapley_values`
sum exactly (over rational arithmetic) to the characteristic value of the
full coalition, `min(Σ demands, total_resources)` — the efficiency property. -/
theorem c1_efficiency (g : CloudResourceGame) (hg : g.Valid) :
    (g.calculate_shapley_values).sum = g.characteristic_function g.vms := by
  rw [g.sum_calculate_shapley_values, CloudResourceGame.sum_shapleyValue]
  have h0 : g.coalitionValue ∅ = 0 := by
    rw [CloudResourceGame.coalitionValue, Finset.sum_empty, min_eq_left hg.2]
  rw [h0, sub_zero, CloudResourceGame.coalitionValue,
    CloudResourceGame.characteristic_function, g.sum_demands]

/-- Witness for C1 at the concrete three-VM scenario from `main()`. -/
theorem c1_efficiency_witness :
    game3.Valid ∧
      (game3.calculate_shapley_values).sum = game3.characteristic_function game3.vms :=
  ⟨by decide, c1_efficiency game3 (by decide)⟩

/-- C7: for every registry with non-negative demands and non-negative
total_resources, the proportional allocation sums exactly (over rational
arithmetic) to `min(total demand, total_resources)`. -/
theorem c7_proportional_sum (g : CloudResourceGame) (hg : g.Valid) :
    (g.calculate_proportional_allocation).sum
      = min ((g.vms.map VM.demand).sum) g.total_resources := by
  rw [CloudResourceGame.calculate_proportional_allocation_def]
  by_cases hD : (g.vms.map VM.demand).sum ≤ g.total_resources
  · rw [if_pos hD, min_eq_left hD]
  · push_neg at hD
    rw [if_neg (not_le.mpr hD), min_eq_right (le_of_lt hD)]
    have hD0 : (0 : ℚ) < (g.vms.map VM.demand).sum := lt_of_le_of_lt hg.2 hD
    have hfun : (fun v : VM => g.total_resources * (v.demand / (g.vms.map VM.demand).sum))
        = fun v : VM => (g.total_resources / (g.vms.map VM.demand).sum) * v.demand :=
      funext fun v => by ring
    rw [hfun, List.sum_map_mul_left, div_mul_cancel₀ _ (ne_of_gt hD0)]

/-- Witness for C7 at the concrete three-VM scenario. -/
theorem c7_proportional_sum_witness :
    game3.Valid ∧
      (game3.calculate_proportional_allocation).sum
        = min ((game3.vms.map VM.demand).sum) game3.total_resources :=
  ⟨by decide, c7_proportional_sum game3 (by decide)⟩

/-- C10: for every registry with non-negative demands and non-negative
total_resources, the Shapley-based allocation never over-commits: its entries
sum to at most total_resources (capping by demand only decreases the total). -/
theorem c10_pool_bound (g : CloudResourceGame) (hg : g.Valid) :
    (g.allocate_resources).sum ≤ g.total_resources := by
  rw [CloudResourceGame.allocate_resources_def]
  by_cases hS : (g.calculate_shapley_values).sum ≤ 0
  · rw [if_pos hS, List.sum_replicate, smul_zero]
    exact hg.2
  · push_neg at hS
    rw [if_neg (not_le.mpr hS), sum_map_list_range]
    have hterm : ∀ i ∈ Finset.range g.n,
        min (g.total_resources *
            ((g.calculate_shapley_values).getD i 0 / (g.calculate_shapley_values).sum))
          (g.vm i).demand
          ≤ (g.total_resources / (g.calculate_shapley_values).sum) * g.shapleyValue i := by
      intro i hi
      rw [g.getD_calculate_shapley_values (Finset.mem_range.mp hi)]
      refine le_trans (min_le_left _ _) (le_of_eq ?_)
      ring
    refine le_trans (Finset.sum_le_sum hterm) ?_
    rw [← Finset.mul_sum, ← g.sum_calculate_shapley_values,
      div_mul_cancel₀ _ (ne_of_gt hS)]

/-- Witness for C10 at the concrete three-VM scenario. -/
theorem c10_pool_bound_witness :
    game3.Valid ∧ (game3.allocate_resources).sum ≤ game3.total_resources :=
  ⟨by decide, c10_pool_bound game3 (by decide)⟩

/-- C9: a consumer with demand 0 receives Shapley value 0 and Shapley-based
allocation 0, for every registry with non-negative demands and non-negative
total_resources. -/
theorem c9_null_player (g : CloudResourceGame) (hg : g.Valid) {i : ℕ} (hi : i < g.n)
    (h0 : (g.vm i).demand = 0) :
    (g.calculate_shapley_values).getD i 0 = 0 ∧ (g.allocate_resources).getD i 0 = 0 := by
  have hsv : g.shapleyValue i = 0 := by
    rw [CloudResourceGame.shapleyValue_eq]
    refine Finset.sum_eq_zero fun C hC => ?_
    rw [Finset.mem_filter] at hC
    have hvv : g.coalitionValue C = g.coalitionValue (C.erase i) := by
      rw [CloudResourceGame.coalitionValue, CloudResourceGame.coalitionValue]
      congr 1
      rw [← Finset.add_sum_erase _ _ hC.2, h0, zero_add]
    rw [hvv, sub_self, zero_mul]
  refine ⟨by rw [g.getD_calculate_shapley_values hi, hsv], ?_⟩
  rw [CloudResourceGame.allocate_resources_def]
  by_cases hS : (g.calculate_shapley_values).sum ≤ 0
  · rw [if_pos hS]
    exact getD_replicate_zero hi
  · rw [if_neg hS, getD_map_range _ hi, g.getD_calculate_shapley_values hi, hsv, h0,
      zero_div, mul_zero, min_self]

/-- Witness for C9: a two-VM registry where the first VM demands 0. -/
theorem c9_null_player_witness :
    (CloudResourceGame.mk [⟨1, 0⟩, ⟨2, 5⟩] 4).Valid ∧
      0 < (CloudResourceGame.mk [⟨1, 0⟩, ⟨2, 5⟩] 4).n ∧
      ((CloudResourceGame.mk [⟨1, 0⟩, ⟨2, 5⟩] 4).vm 0).demand = 0 ∧
      ((CloudResourceGame.mk [⟨1, 0⟩, ⟨2, 5⟩] 4).calculate_shapley_values).getD 0 0 = 0 ∧
      ((CloudResourceGame.mk [⟨1, 0⟩, ⟨2, 5⟩] 4).allocate_resources).getD 0 0 = 0 := by
  have h := c9_null_player (CloudResourceGame.mk [⟨1, 0⟩, ⟨2, 5⟩] 4)
    (by decide) (i := 0) (by decide) (by decide)
  exact ⟨by decide, by decide, by decide, h.1, h.2⟩

/-- C3: under the validity precondition, every entry of the Shapley-based
allocation and of the proportional allocation lies in `[0, demand_i]`. -/
theorem c3_allocation_bounds (g : CloudResourceGame) (hg : g.Valid) {i : ℕ} (hi : i < g.n) :
    0 ≤ (g.allocate_resources).getD i 0 ∧
      (g.allocate_resources).getD i 0 ≤ (g.vm i).demand ∧
      0 ≤ (g.calculate_proportional_allocation).getD i 0 ∧
      (g.calculate_proportional_allocation).getD i 0 ≤ (g.vm i).demand := by
  have hdi := g.demand_nonneg hg i
  have hshap : 0 ≤ (g.allocate_resources).getD i 0 ∧
      (g.allocate_resources).getD i 0 ≤ (g.vm i).demand := by
    rw [CloudResourceGame.allocate_resources_def]
    by_cases hS : (g.calculate_shapley_values).sum ≤ 0
    · rw [if_pos hS, getD_replicate_zero hi]
      exact ⟨le_rfl, hdi⟩
    · push_neg at hS
      rw [if_neg (not_le.mpr hS), getD_map_range _ hi, g.getD_calculate_shapley_values hi]
      exact ⟨le_min (mul_nonneg hg.2
          (div_nonneg (g.shapleyValue_nonneg hg i) (le_of_lt hS))) hdi,
        min_le_right _ _⟩
  have hprop : 0 ≤ (g.calculate_proportional_allocation).getD i 0 ∧
      (g.calculate_proportional_allocation).getD i 0 ≤ (g.vm i).demand := by
    rw [CloudResourceGame.calculate_proportional_allocation_def]
    by_cases hD : (g.vms.map VM.demand).sum ≤ g.total_resources
    · rw [if_pos hD, g.getD_map_vms VM.demand rfl i]
      exact ⟨hdi, le_rfl⟩
    · push_neg at hD
      have hD0 : (0 : ℚ) < (g.vms.map VM.demand).sum := lt_of_le_of_lt hg.2 hD
      rw [if_neg (not_le.mpr hD), g.getD_map_vms _
        (by simp only [default_demand, zero_div, mul_zero]) i]
      constructor
      · exact mul_nonneg hg.2 (div_nonneg hdi (le_of_lt hD0))
      · have h1 : g.total_resources * ((g.vm i).demand / (g.vms.map VM.demand).sum)
            = (g.vm i).demand * (g.total_resources / (g.vms.map VM.demand).sum) := by ring
        rw [h1]
        calc (g.vm i).demand * (g.total_resources / (g.vms.map VM.demand).sum)
            ≤ (g.vm i).demand * 1 :=
              mul_le_mul_of_nonneg_left ((div_le_one hD0).mpr (le_of_lt hD)) hdi
          _ = (g.vm i).demand := mul_one _
  exact ⟨hshap.1, hshap.2, hprop.1, hprop.2⟩

/-- Witness for C3 at the concrete three-VM scenario, index 0. -/
theorem c3_allocation_bounds_witness :
    game3.Valid ∧ 0 < game3.n ∧
      (0 ≤ (game3.allocate_resources).getD 0 0 ∧
        (game3.allocate_resources).getD 0 0 ≤ (game3.vm 0).demand ∧
        0 ≤ (game3.calculate_proportional_allocation).getD 0 0 ∧
        (game3.calculate_proportional_allocation).getD 0 0 ≤ (game3.vm 0).demand) :=
  ⟨by decide, by decide, c3_allocation_bounds game3 (by decide) (i := 0) (by decide)⟩

namespace CloudResourceGame

/-- The weights of all coalitions containing a fixed index sum to 1: they are
the probabilities of the possible predecessor sets in a uniformly random
ordering of the `n` VMs. -/
lemma sum_weights (g : CloudResourceGame) {i : ℕ} (hi : i < g.n) :
    ∑ C ∈ (Finset.range g.n).powerset.filter (fun C => i ∈ C),
      g.weight (C.erase i).card = 1 := by
  classical
  have h1 : ∑ C ∈ (Finset.range g.n).powerset.filter (fun C => i ∈ C),
      g.weight (C.erase i).card
      = ∑ S ∈ ((Finset.range g.n).erase i).powerset, g.weight S.card := by
    refine Finset.sum_nbij' (fun C => C.erase i) (fun S => insert i S) ?_ ?_ ?_ ?_ ?_
    · intro C hC
      rw [Finset.mem_filter, Finset.mem_powerset] at hC
      rw [Finset.mem_powerset]
      exact Finset.erase_subset_erase i hC.1
    · intro S hS
      rw [Finset.mem_powerset] at hS
      rw [Finset.mem_filter, Finset.mem_powerset]
      exact ⟨Finset.insert_subset (Finset.mem_range.mpr hi)
        (hS.trans (Finset.erase_subset _ _)), Finset.mem_insert_self _ _⟩
    · intro C hC
      rw [Finset.mem_filter] at hC
      exact Finset.insert_erase hC.2
    · intro S hS
      rw [Finset.mem_powerset] at hS
      exact Finset.erase_insert fun hiS => Finset.not_mem_erase i _ (hS hiS)
    · intro C _
      rfl
  rw [h1, Finset.sum_powerset_apply_card (fun s => g.weight s)]
  have hcard : ((Finset.range g.n).erase i).card = g.n - 1 := by
    rw [Finset.card_erase_of_mem (Finset.mem_range.mpr hi), Finset.card_range]
  rw [hcard]
  have hn0 : (g.n : ℚ) ≠ 0 := Nat.cast_ne_zero.mpr (by omega)
  have hterm : ∀ m ∈ Finset.range (g.n - 1 + 1),
      (g.n - 1).choose m • g.weight m = (1 : ℚ) / g.n := by
    intro m hm
    rw [Finset.mem_range] at hm
    have hm' : m ≤ g.n - 1 := by omega
    rw [nsmul_eq_mul, weight]
    have hsub : g.n - m - 1 = g.n - 1 - m := by omega
    rw [hsub]
    have hcast : ((g.n - 1).choose m : ℚ) * (m.factorial : ℚ) * ((g.n - 1 - m).factorial : ℚ)
        = ((g.n - 1).factorial : ℚ) := by
      exact_mod_cast Nat.choose_mul_factorial_mul_factorial hm'
    have hnfact : (g.n : ℚ) * ((g.n - 1).factorial : ℚ) = (g.n.factorial : ℚ) := by
      exact_mod_cast Nat.mul_factorial_pred (show 0 < g.n by omega)
    have hF : (g.n.factorial : ℚ) ≠ 0 := by
      exact_mod_cast g.n.factorial_ne_zero
    field_simp
    linear_combination (g.n : ℚ) * hcast + hnfact
  rw [Finset.sum_congr rfl hterm, Finset.sum_const, Finset.card_range, nsmul_eq_mul]
  have hn1 : ((g.n - 1 + 1 : ℕ) : ℚ) = (g.n : ℚ) := by
    congr 1
    omega
  rw [hn1, mul_one_div, div_self hn0]

/-- When total demand fits in the pool, the game is additive and every VM's
accumulated Shapley value is exactly its demand. -/
lemma shapleyValue_additive (g : CloudResourceGame) (hg : g.Valid)
    (hD : (g.vms.map VM.demand).sum ≤ g.total_resources) {i : ℕ} (hi : i < g.n) :
    g.shapleyValue i = (g.vm i).demand := by
  have hval : ∀ C ⊆ Finset.range g.n, g.coalitionValue C = ∑ j ∈ C, (g.vm j).demand := by
    intro C hC
    rw [coalitionValue]
    refine min_eq_left ?_
    calc ∑ j ∈ C, (g.vm j).demand
        ≤ ∑ j ∈ Finset.range g.n, (g.vm j).demand :=
          Finset.sum_le_sum_of_subset_of_nonneg hC fun j _ _ => g.demand_nonneg hg j
      _ = (g.vms.map VM.demand).sum := (g.sum_demands).symm
      _ ≤ g.total_resources := hD
  rw [shapleyValue_eq]
  have hterm : ∀ C ∈ (Finset.range g.n).powerset.filter (fun C => i ∈ C),
      (g.coalitionValue C - g.coalitionValue (C.erase i)) * g.weight (C.erase i).card
        = (g.vm i).demand * g.weight (C.erase i).card := by
    intro C hC
    rw [Finset.mem_filter, Finset.mem_powerset] at hC
    rw [hval C hC.1, hval _ ((Finset.erase_subset i C).trans hC.1),
      ← Finset.add_sum_erase _ _ hC.2, add_sub_cancel_right]
  rw [Finset.sum_congr rfl hterm, ← Finset.mul_sum, g.sum_weights hi, mul_one]

end CloudResourceGame

/-- C4: if total demand fits in the pool (no scarcity) then, under the
validity precondition, both allocation methods give every consumer exactly
its full demand. -/
theorem c4_no_scarcity (g : CloudResourceGame) (hg : g.Valid)
    (hD : (g.vms.map VM.demand).sum ≤ g.total_resources) {i : ℕ} (hi : i < g.n) :
    (g.allocate_resources).getD i 0 = (g.vm i).demand ∧
      (g.calculate_proportional_allocation).getD i 0 = (g.vm i).demand := by
  have hsum : (g.calculate_shapley_values).sum = (g.vms.map VM.demand).sum := by
    rw [g.sum_calculate_shapley_values, g.sum_demands]
    exact Finset.sum_congr rfl fun j hj =>
      g.shapleyValue_additive hg hD (Finset.mem_range.mp hj)
  constructor
  · rw [CloudResourceGame.allocate_resources_def]
    by_cases hS : (g.calculate_shapley_values).sum ≤ 0
    · rw [if_pos hS, getD_replicate_zero hi]
      rw [hsum, g.sum_demands] at hS
      have hzero : ∑ j ∈ Finset.range g.n, (g.vm j).demand = 0 :=
        le_antisymm hS (Finset.sum_nonneg fun j _ => g.demand_nonneg hg j)
      exact (((Finset.sum_eq_zero_iff_of_nonneg
        (fun j _ => g.demand_nonneg hg j)).mp hzero) i (Finset.mem_range.mpr hi)).symm
    · push_neg at hS
      rw [if_neg (not_le.mpr hS), getD_map_range _ hi, g.getD_calculate_shapley_values hi,
        g.shapleyValue_additive hg hD hi, hsum]
      refine min_eq_right ?_
      have hD0 : (0 : ℚ) < (g.vms.map VM.demand).sum := by
        rw [hsum] at hS
        exact hS
      have hdi := g.demand_nonneg hg i
      calc (g.vm i).demand = (g.vm i).demand * 1 := (mul_one _).symm
        _ ≤ (g.vm i).demand * (g.total_resources / (g.vms.map VM.demand).sum) :=
            mul_le_mul_of_nonneg_left ((one_le_div hD0).mpr hD) hdi
        _ = g.total_resources * ((g.vm i).demand / (g.vms.map VM.demand).sum) := by ring
  · rw [CloudResourceGame.calculate_proportional_allocation_def, if_pos hD,
      g.getD_map_vms VM.demand rfl i]

/-- Witness for C4: one VM demanding 10 from a pool of 45. -/
theorem c4_no_scarcity_witness :
    (CloudResourceGame.mk [⟨1, 10⟩] 45).Valid ∧
      ((CloudResourceGame.mk [⟨1, 10⟩] 45).vms.map VM.demand).sum
        ≤ (CloudResourceGame.mk [⟨1, 10⟩] 45).total_resources ∧
      0 < (CloudResourceGame.mk [⟨1, 10⟩] 45).n ∧
      ((CloudResourceGame.mk [⟨1, 10⟩] 45).allocate_resources).getD 0 0
        = ((CloudResourceGame.mk [⟨1, 10⟩] 45).vm 0).demand ∧
      ((CloudResourceGame.mk [⟨1, 10⟩] 45).calculate_proportional_allocation).getD 0 0
        = ((CloudResourceGame.mk [⟨1, 10⟩] 45).vm 0).demand := by
  have hD : ((CloudResourceGame.mk [⟨1, 10⟩] 45).vms.map VM.demand).sum
      ≤ (CloudResourceGame.mk [⟨1, 10⟩] 45).total_resources := by
    norm_num [CloudResourceGame.total_resources]
  have h := c4_no_scarcity (CloudResourceGame.mk [⟨1, 10⟩] 45)
    (by decide) hD (i := 0) (by decide)
  exact ⟨by decide, hD, by decide, h.1, h.2⟩

namespace CloudResourceGame

/-- Swapping two indices with equal demands preserves every indexed demand. -/
lemma vm_swap_demand (g : CloudResourceGame) {i j : ℕ}
    (hd : (g.vm i).demand = (g.vm j).demand) (k : ℕ) :
    (g.vm ((Equiv.swap i j) k)).demand = (g.vm k).demand := by
  rcases eq_or_ne k i with rfl | hki
  · rw [Equiv.swap_apply_left]
    exact hd.symm
  · rcases eq_or_ne k j with rfl | hkj
    · rw [Equiv.swap_apply_right]
      exact hd
    · rw [Equiv.swap_apply_of_ne_of_ne hki hkj]

/-- Swapping two indices with equal demands preserves every coalition value. -/
lemma coalitionValue_swap (g : CloudResourceGame) {i j : ℕ}
    (hd : (g.vm i).demand = (g.vm j).demand) (C : Finset ℕ) :
    g.coalitionValue (C.image (Equiv.swap i j)) = g.coalitionValue C := by
  rw [coalitionValue, coalitionValue]
  congr 1
  rw [Finset.sum_image fun x _ y _ h => (Equiv.swap i j).injective h]
  exact Finset.sum_congr rfl fun k _ => g.vm_swap_demand hd k

/-- Symmetry of the accumulated Shapley values: two in-range indices with
equal demands get equal Shapley values (via the coalition bijection that
swaps the two indices). -/
lemma shapleyValue_symm (g : CloudResourceGame) {i j : ℕ} (hi : i < g.n) (hj : j < g.n)
    (hd : (g.vm i).demand = (g.vm j).demand) :
    g.shapleyValue i = g.shapleyValue j := by
  classical
  rw [shapleyValue_eq, shapleyValue_eq]
  have himg : ∀ C : Finset ℕ, C ⊆ Finset.range g.n →
      C.image (Equiv.swap i j) ⊆ Finset.range g.n := by
    intro C hC x hx
    rw [Finset.mem_image] at hx
    obtain ⟨y, hy, rfl⟩ := hx
    have hyn := Finset.mem_range.mp (hC hy)
    rw [Finset.mem_range]
    rcases eq_or_ne y i with rfl | hyi
    · rw [Equiv.swap_apply_left]
      exact hj
    · rcases eq_or_ne y j with rfl | hyj
      · rw [Equiv.swap_apply_right]
        exact hi
      · rw [Equiv.swap_apply_of_ne_of_ne hyi hyj]
        exact hyn
  have hdouble : ∀ C : Finset ℕ, (C.image (Equiv.swap i j)).image (Equiv.swap i j) = C := by
    intro C
    rw [Finset.image_image]
    have hcomp : ((Equiv.swap i j : ℕ → ℕ) ∘ (Equiv.swap i j : ℕ → ℕ)) = id :=
      funext fun x => Equiv.swap_apply_self i j x
    rw [hcomp, Finset.image_id]
  have herase : ∀ C : Finset ℕ,
      (C.image (Equiv.swap i j)).erase j = (C.erase i).image (Equiv.swap i j) := by
    intro C
    rw [Finset.image_erase (Equiv.swap i j).injective, Equiv.swap_apply_left]
  refine Finset.sum_nbij' (fun C => C.image (Equiv.swap i j))
    (fun C => C.image (Equiv.swap i j)) ?_ ?_ ?_ ?_ ?_
  · intro C hC
    rw [Finset.mem_filter, Finset.mem_powerset] at hC ⊢
    refine ⟨himg C hC.1, ?_⟩
    have hmem : (Equiv.swap i j) i ∈ C.image (Equiv.swap i j) :=
      Finset.mem_image_of_mem _ hC.2
    rwa [Equiv.swap_apply_left] at hmem
  · intro C hC
    rw [Finset.mem_filter, Finset.mem_powerset] at hC ⊢
    refine ⟨himg C hC.1, ?_⟩
    have hmem : (Equiv.swap i j) j ∈ C.image (Equiv.swap i j) :=
      Finset.mem_image_of_mem _ hC.2
    rwa [Equiv.swap_apply_right] at hmem
  · intro C _
    exact hdouble C
  · intro C _
    exact hdouble C
  · intro C _
    rw [herase C, g.coalitionValue_swap hd C, g.coalitionValue_swap hd (C.erase i),
      Finset.card_image_of_injective _ (Equiv.swap i j).injective]

end CloudResourceGame

/-- C8: two consumers with identical demand receive identical Shapley values
and identical Shapley-based allocations, under the validity precondition. -/
theorem c8_symmetry (g : CloudResourceGame) (hg : g.Valid) {i j : ℕ}
    (hi : i < g.n) (hj : j < g.n) (hd : (g.vm i).demand = (g.vm j).demand) :
    (g.calculate_shapley_values).getD i 0 = (g.calculate_shapley_values).getD j 0 ∧
      (g.allocate_resources).getD i 0 = (g.allocate_resources).getD j 0 := by
  have hsv := g.shapleyValue_symm hi hj hd
  constructor
  · rw [g.getD_calculate_shapley_values hi, g.getD_calculate_shapley_values hj, hsv]
  · rw [CloudResourceGame.allocate_resources_def]
    by_cases hS : (g.calculate_shapley_values).sum ≤ 0
    · rw [if_pos hS, getD_replicate_zero hi, getD_replicate_zero hj]
    · rw [if_neg hS, getD_map_range _ hi, getD_map_range _ hj,
        g.getD_calculate_shapley_values hi, g.getD_calculate_shapley_values hj, hsv, hd]

/-- Witness for C8: two VMs with the same demand 7 and a pool of 5. -/
theorem c8_symmetry_witness :
    (CloudResourceGame.mk [⟨1, 7⟩, ⟨2, 7⟩] 5).Valid ∧
      0 < (CloudResourceGame.mk [⟨1, 7⟩, ⟨2, 7⟩] 5).n ∧
      1 < (CloudResourceGame.mk [⟨1, 7⟩, ⟨2, 7⟩] 5).n ∧
      ((CloudResourceGame.mk [⟨1, 7⟩, ⟨2, 7⟩] 5).vm 0).demand
        = ((CloudResourceGame.mk [⟨1, 7⟩, ⟨2, 7⟩] 5).vm 1).demand ∧
      ((CloudResourceGame.mk [⟨1, 7⟩, ⟨2, 7⟩] 5).calculate_shapley_values).getD 0 0
        = ((CloudResourceGame.mk [⟨1, 7⟩, ⟨2, 7⟩] 5).calculate_shapley_values).getD 1 0 ∧
      ((CloudResourceGame.mk [⟨1, 7⟩, ⟨2, 7⟩] 5).allocate_resources).getD 0 0
        = ((CloudResourceGame.mk [⟨1, 7⟩, ⟨2, 7⟩] 5).allocate_resources).getD 1 0 := by
  have h := c8_symmetry (CloudResourceGame.mk [⟨1, 7⟩, ⟨2, 7⟩] 5)
    (by decide) (i := 0) (j := 1) (by decide) (by decide) (by decide)
  exact ⟨by decide, by decide, by decide, by decide, h.1, h.2⟩
